import Mathlib

/-!
Verification development for the `cloclify` command-line client.

The Python sources are shallowly embedded: strings are lists of
characters (`Str`), the mutable `ArgumentParser` accumulator becomes an
explicit state record threaded through a fold over the input tokens,
exceptions become `Except`, and `datetime` values are modelled at
second precision (naive parser datetimes as a day number plus a wall
clock time; timezone-aware instants in the codec as seconds since an
epoch plus a fixed UTC offset in seconds; the calendar rendering of a
date is abstracted by its day number, which is in bijection with the
textual `YYYY-MM-DD` form).  External capabilities (the `dateparser`
library, HTTP responses) are oracle parameters.
-/

namespace Cloclify

/-- Character strings, modelled as lists of characters. -/
abbrev Str := List Char

/-- Split a character list on a separator character, keeping empty
chunks, like Python's `str.split` with a one-character separator. -/
def splitOnChar (c : Char) : Str → List Str
  | [] => [[]]
  | x :: xs =>
    match splitOnChar c xs with
    | [] => [[]]
    | y :: ys => if x = c then [] :: y :: ys else (x :: y) :: ys

/-- Join a list of strings with a separator, like Python's `sep.join`. -/
def joinSep (sep : Str) : List Str → Str
  | [] => []
  | [x] => x
  | x :: y :: ys => x ++ sep ++ joinSep sep (y :: ys)

/-- Python `repr` of a list of strings, as used by an f-string
interpolation of a `List[str]` value. -/
def pyListRepr (xs : List Str) : Str :=
  '[' :: joinSep ", ".data (xs.map (fun s => '\x27' :: s ++ ['\x27'])) ++ [']']

/-- Wall-clock time of day (`datetime.time`), at second precision. -/
structure Time where
  hour : Nat
  minute : Nat
  second : Nat
deriving DecidableEq

/-- Python `datetime.time()`: midnight. -/
def Time.midnight : Time := ⟨0, 0, 0⟩

/-- Naive `datetime.datetime` as used by the argument parser: a day
number (standing for the calendar date) and a wall-clock time. -/
structure DateTime where
  date : Int
  time : Time
deriving DecidableEq

/-- Errors escaping the parser: `utils.UsageError` with its message, or
an uncaught `IndexError` from subscripting an empty token. -/
inductive PErr where
  | usage (msg : Str)
  | indexErr
deriving DecidableEq

/-- The `client.Entry` dataclass, generic over the datetime type (the
parser stores naive datetimes in it, the client timezone-aware ones). -/
structure Entry (DT : Type) where
  start : Option DT := none
  end_ : Option DT := none
  description : Option Str := none
  billable : Bool := false
  project : Option Str := none
  project_color : Option Str := none
  tags : List Str := []
  eid : Option Str := none
deriving DecidableEq

/-- Parse a one-or-two digit run as its numeric value. -/
def digitRunVal : Str → Option Nat
  | [a] => if a.isDigit then some (a.toNat - '0'.toNat) else none
  | [a, b] =>
    if a.isDigit && b.isDigit
    then some ((a.toNat - '0'.toNat) * 10 + (b.toNat - '0'.toNat))
    else none
  | _ => none

/-- Python `datetime.strptime(s, "%H:%M").time()`: one or two digits of
hour (0-23), a colon, one or two digits of minute (0-59); any failure
is a `ValueError` whose message is abstracted here. -/
def strptimeHM (s : Str) : Except Str Time :=
  match splitOnChar ':' s with
  | [h, m] =>
    match digitRunVal h, digitRunVal m with
    | some hv, some mv =>
      if hv ≤ 23 && mv ≤ 59 then .ok ⟨hv, mv, 0⟩
      else .error ("time data ".data ++ s ++ " does not match format %H:%M".data)
    | _, _ => .error ("time data ".data ++ s ++ " does not match format %H:%M".data)
  | _ => .error ("time data ".data ++ s ++ " does not match format %H:%M".data)

/-- Run of one or two decimal digits (`\d\d?`). -/
def digitRun (l : Str) : Bool :=
  (l.length = 1 || l.length = 2) && l.all (·.isDigit)

/-- Pattern `\d\d?:\d\d?` from the timespan regular expression: since
a digit is never a colon, a full match is exactly a split on `:` into
two digit runs. -/
def hhmmPat (s : Str) : Bool :=
  match splitOnChar ':' s with
  | [h, m] => digitRun h && digitRun m
  | _ => false

/-- Pattern `(\d\d?:\d\d?|/|now)` (the `time_pattern` of
`ArgumentParser.parse`). -/
def timePart (s : Str) : Bool :=
  s = "/".data || s = "now".data || hhmmPat s

/-- Executable full match of `(\d\d?:\d\d?|/|now)-(\d\d?:\d\d?|/|now)`
(the `timespan_re` of `ArgumentParser.parse`): since neither
alternative of `time_pattern` contains a dash, a full match is exactly
a split into two dash-free matching halves. -/
def timespanFullmatch (s : Str) : Bool :=
  match splitOnChar '-' s with
  | [a, b] => timePart a && timePart b
  | _ => false

/-- The mutable accumulator of `ArgumentParser`, as an explicit state
record. -/
structure PState where
  timespans : List (Option Time × Option Time) := []
  description : Str := []
  billable : Bool := false
  date : Int
  tags : List Str := []
  project : Option Str := none
  workspace : Option Str := none
deriving DecidableEq

/-- Environment of a parse run: the current instant and the external
`dateparser.parse` capability (already applied to the relative base;
`none` models a `None` result). -/
structure Env where
  now : DateTime
  dateparse : Str → Option DateTime

/-- Fresh parser state (`ArgumentParser.__init__`): the date defaults
to today. -/
def initState (env : Env) : PState := { date := env.now.date }

/-- `ArgumentParser._parse_time`. -/
def parse_time (env : Env) (st : PState) (time_str : Str) :
    Except PErr (Option Time) :=
  if time_str = "now".data then
    if st.date ≠ env.now.date then
      .error (.usage "Can\x27t combine \x27now\x27 with different date".data)
    else .ok (some env.now.time)
  else if time_str = "/".data then .ok none
  else
    match strptimeHM time_str with
    | .ok t => .ok (some t)
    | .error e => .error (.usage e)

/-- `ArgumentParser._parse_timespan`. -/
def parse_timespan (env : Env) (st : PState) (arg : Str) :
    Except PErr PState :=
  match splitOnChar '-' arg with
  | [start_str, end_str] => do
    let start_time ← parse_time env st start_str
    let end_time ← parse_time env st end_str
    if start_time = none ∧ end_time = none then
      .error (.usage "Either start or end time needs to be given".data)
    else
      .ok { st with timespans := st.timespans ++ [(start_time, end_time)] }
  | _ =>
    .error (.usage ("Couldn\x27t parse timespan ".data ++ arg
      ++ " (too many \x27-\x27)".data))

/-- `ArgumentParser._parse_date`. -/
def parse_date (env : Env) (st : PState) (arg : Str) : Except PErr PState :=
  if st.date ≠ env.now.date then .error (.usage "Multiple dates".data)
  else
    match env.dateparse arg with
    | none => .error (.usage ("Couldn\x27t parse date ".data ++ arg))
    | some parsed =>
      if parsed.time ≠ Time.midnight then
        .error (.usage ("Date ".data ++ arg ++ " contains unexpected time".data))
      else .ok { st with date := parsed.date }

/-- `ArgumentParser._parse_description`. -/
def parse_description (st : PState) (arg : Str) : PState :=
  if st.description ≠ [] then
    { st with description := st.description ++ ' ' :: arg }
  else { st with description := arg }

/-- `ArgumentParser._parse_project`: last write wins, never errors. -/
def parse_project (st : PState) (arg : Str) : Except PErr PState :=
  .ok { st with project := some arg }

/-- `ArgumentParser._parse_tag`. -/
def parse_tag (st : PState) (arg : Str) : Except PErr PState :=
  .ok { st with tags := st.tags ++ [arg] }

/-- `ArgumentParser._parse_workspace`: errors on a second workspace. -/
def parse_workspace (st : PState) (arg : Str) : Except PErr PState :=
  match st.workspace with
  | some w =>
    .error (.usage ("Multiple workspaces: ".data ++ w ++ ", ".data ++ arg))
  | none => .ok { st with workspace := some arg }

/-- `ArgumentParser._parse_billable`. -/
def parse_billable (st : PState) (arg : Str) : Except PErr PState :=
  if arg ≠ [] then .error (.usage ("Invalid billable arg ".data ++ arg))
  else .ok { st with billable := true }

/-- One iteration of the token-classification loop in
`ArgumentParser.parse`, in the source's branch order: timespan regular
expression first, then the sigils, then the `start`/`stop` aliases,
else description.  Subscripting an empty token raises `IndexError`. -/
def classifyStep (env : Env) (st : PState) (arg : Str) : Except PErr PState :=
  if timespanFullmatch arg then parse_timespan env st arg
  else
    match arg with
    | [] => .error .indexErr
    | c :: rest =>
      if c = '+' then parse_tag st rest
      else if c = '@' then parse_project st rest
      else if c = '$' then parse_billable st rest
      else if c = '.' then parse_date env st rest
      else if c = '^' then parse_workspace st rest
      else if arg = "start".data then parse_timespan env st "now-/".data
      else if arg = "stop".data then parse_timespan env st "/-now".data
      else .ok (parse_description st arg)

/-- The token loop of `ArgumentParser.parse`. -/
def processTokens (env : Env) (st : PState) (inputs : List Str) :
    Except PErr PState :=
  inputs.foldlM (classifyStep env) st

/-- `ArgumentParser._combine_date`. -/
def combine_date (date : Int) (time : Option Time) : Option DateTime :=
  time.map (fun t => ⟨date, t⟩)

/-- Python `datetime.strptime(s, "%Y-%m")`, abstracted to its success:
four digits, a dash, one or two digits of month (1-12). -/
def strptimeYM (s : Str) : Option (Int × Nat) :=
  match splitOnChar '-' s with
  | [[y1, y2, y3, y4], m] =>
    if y1.isDigit && y2.isDigit && y3.isDigit && y4.isDigit then
      match digitRunVal m with
      | some mv => if 1 ≤ mv && mv ≤ 12 then
          some (((y1.toNat - '0'.toNat) * 1000 + (y2.toNat - '0'.toNat) * 100
            + (y3.toNat - '0'.toNat) * 10 + (y4.toNat - '0'.toNat) : Nat), mv)
        else none
      | none => none
    else none
  | _ => none

/-- Result handed to the caller by `ArgumentParser.parse` (the fields
of the parser object read by `main.run`). -/
structure ParseResult where
  entries : List (Entry DateTime)
  date : Int
  tags : List Str
  project : Option Str
  workspace : Option Str
  description : Str
  billable : Bool
  dump : Option (Int × Nat)
deriving DecidableEq

/-- Entry assembly of `ArgumentParser.parse` (lines 198-207): one
draft per collected timespan, each given the global description,
billable flag and project.  The source does not pass the collected
tags to `Entry`, so every draft keeps the dataclass default
`tags=[]`. -/
def buildEntries (st : PState) : List (Entry DateTime) :=
  st.timespans.map
    (fun ts =>
      { start := combine_date st.date ts.1
        end_ := combine_date st.date ts.2
        description := some st.description
        billable := st.billable
        project := st.project })

/-- Parsing of the `--dump` month (a falsy value is skipped; an
unparseable one raises). -/
def dumpParse (dumpArg : Option Str) : Except PErr (Option (Int × Nat)) :=
  match dumpArg with
  | some d =>
    if d ≠ [] then
      match strptimeYM d with
      | some ym => .ok (some ym)
      | none =>
        .error (.usage ("Unparseable month ".data ++ d
          ++ " (use YYYY-MM)".data))
    else .ok none
  | none => .ok none

/-- The "given without new entries" checks (run only when no draft has
a start): description first, then billable, then a truthy project,
then tags. -/
def noNewEntriesCheck (st : PState) : Except PErr Unit :=
  if st.description ≠ [] then
    .error (.usage ("Description ".data ++ st.description
      ++ " given without new entries".data))
  else if st.billable then
    .error (.usage "Billable given without new entries".data)
  else if (match st.project with
      | some p => decide (p ≠ [])
      | none => false) = true then
    .error (.usage ("Project ".data
      ++ (match st.project with | some p => p | none => [])
      ++ " given without new entries".data))
  else if st.tags ≠ [] then
    .error (.usage ("Tags ".data ++ pyListRepr st.tags
      ++ " given without new entries".data))
  else .ok ()

/-- Straight-line tail of `ArgumentParser.parse` after the token loop:
entry assembly, the `--dump` parse, the "given without new entries"
checks, then the `--dump`/date check.  The textual rendering of the
date in the last error is abstracted by the day number's decimal
form. -/
def assembleAndCheck (env : Env) (dumpArg : Option Str) (st : PState) :
    Except PErr ParseResult :=
  match dumpParse dumpArg with
  | .error e => .error e
  | .ok dump =>
    match (if (buildEntries st).any (fun e => e.start ≠ none) then .ok ()
           else noNewEntriesCheck st : Except PErr Unit) with
    | .error e => .error e
    | .ok _ =>
      if dump.isSome ∧ st.date ≠ env.now.date then
        .error (.usage ("Date ".data ++ st.date.repr.data
          ++ " given with --dump".data))
      else
        .ok { entries := buildEntries st, date := st.date, tags := st.tags
              project := st.project, workspace := st.workspace
              description := st.description, billable := st.billable
              dump := dump }

/-- `ArgumentParser.parse`: the token-classification loop followed by
entry assembly and the cross-field checks.  `dumpArg` models the
`--dump` option (`none` when absent). -/
def parse (env : Env) (inputs : List Str) (dumpArg : Option Str) :
    Except PErr ParseResult :=
  processTokens env (initState env) inputs >>= assembleAndCheck env dumpArg

/-- Timezone-aware `datetime.datetime` as handled by `utils` and
`client`: an absolute instant (seconds since an epoch, in UTC) and the
attached fixed timezone offset (seconds east of UTC). -/
structure AwareDT where
  instant : Int
  tz : Int
deriving DecidableEq

/-- Textual ISO-8601 timestamp as produced by `to_iso_timestamp` and
consumed by `from_iso_timestamp`: the calendar-date part is abstracted
by its day number, the time-of-day by its `HH:MM:SS` fields, and the
suffix by an optional numeric UTC offset (seconds) plus a flag for a
trailing literal `Z`. -/
structure IsoOut where
  dayNumber : Int
  hour : Nat
  minute : Nat
  second : Nat
  trailingOffset : Option Int
  zSuffix : Bool
deriving DecidableEq

/-- `utils.to_iso_timestamp(dt, timezone=...)` (default UTC, offset 0):
`dt.astimezone(timezone).isoformat().split("+")[0] + "Z"`.  The
`isoformat` output shows the wall clock at the given offset and a
signed numeric offset suffix; `split("+")[0]` textually removes that
suffix exactly when it starts with a plus sign (offset ≥ 0), and a
literal `Z` is appended unconditionally. -/
def to_iso_timestamp (dt : AwareDT) (timezone : Int := 0) : IsoOut :=
  let wall := dt.instant + timezone
  let tod := (wall.emod 86400).toNat
  { dayNumber := wall.ediv 86400
    hour := tod / 3600
    minute := tod % 3600 / 60
    second := tod % 60
    trailingOffset := if 0 ≤ timezone then none else some timezone
    zSuffix := true }

/-- `utils.from_iso_timestamp(timestamp, timezone)`:
`dateutil.parser.isoparse(timestamp).astimezone(timezone)`.  A
timestamp carrying both a numeric offset and a `Z` is not valid
ISO-8601 and makes `isoparse` raise; a timestamp with neither is naive
and `astimezone` then interprets it in the machine-local zone
(`localTz`, an explicit parameter of the model). -/
def from_iso_timestamp (s : IsoOut) (timezone : Int) (localTz : Int := 0) :
    Except Str AwareDT :=
  if s.zSuffix && s.trailingOffset.isSome then
    .error "Invalid isoformat string".data
  else
    let wall : Int := s.dayNumber * 86400 + s.hour * 3600 + s.minute * 60
      + s.second
    let srcOffset : Int :=
      if s.zSuffix then 0
      else match s.trailingOffset with
        | some o => o
        | none => localTz
    .ok ⟨wall - srcOffset, timezone⟩

/-- JSON payload values: the timestamp strings of the wire format are
kept in their structured `IsoOut` form. -/
inductive Json where
  | str (s : Str)
  | iso (x : IsoOut)
  | bool (b : Bool)
  | arr (xs : List Json)
  | obj (fields : List (Str × Json))

/-- Errors of `Entry.serialize`: the failed `assert` for a close-out
entry without an end, or a `KeyError` from a catalog lookup. -/
inductive SerErr where
  | assertionError
  | keyError (k : Str)
deriving DecidableEq

/-- Lookup in a name-to-record catalog (a Python dict, modelled as an
association list from name to id). -/
def lookupCat (cat : List (Str × Str)) (k : Str) : Option Str :=
  (cat.find? (fun p => p.1 = k)).map (·.2)

/-- Resolve each tag name to its id (`[tags[tag]["id"] for tag in
self.tags]`), failing with `KeyError` on an unknown name. -/
def resolveTags (cat : List (Str × Str)) : List Str → Except SerErr (List Str)
  | [] => .ok []
  | t :: rest =>
    match lookupCat cat t with
    | none => .error (.keyError t)
    | some i => do
      let is ← resolveTags cat rest
      .ok (i :: is)

/-- Resolution of the `projectId` field of `Entry.serialize` (present
only when a project name is set; an unknown name raises `KeyError`). -/
def projField (projects : List (Str × Str)) (project : Option Str) :
    Except SerErr (List (Str × Json)) :=
  match project with
  | some p =>
    match lookupCat projects p with
    | none => .error (.keyError p)
    | some i => .ok [("projectId".data, Json.str i)]
  | none => .ok []

/-- `Entry.serialize`: a close-out entry (`start is None`) asserts a
non-null end and emits the one-key `{end}` payload; otherwise `start`
is emitted, then `end` and `description` when present, then
`billable`, then `projectId` when a project is set, then `tagIds`
(the tags field is never `None`, so `tagIds` is always present). -/
def Entry.serialize (projects tags : List (Str × Str)) (e : Entry AwareDT) :
    Except SerErr Json :=
  match e.start with
  | none =>
    match e.end_ with
    | none => .error .assertionError
    | some t => .ok (.obj [("end".data, .iso (to_iso_timestamp t))])
  | some s =>
    match projField projects e.project with
    | .error err => .error err
    | .ok projFields =>
      match resolveTags tags e.tags with
      | .error err => .error err
      | .ok tagIds =>
        .ok (.obj ([("start".data, Json.iso (to_iso_timestamp s))]
          ++ (match e.end_ with
              | some t => [("end".data, Json.iso (to_iso_timestamp t))]
              | none => [])
          ++ (match e.description with
              | some d => [("description".data, Json.str d)]
              | none => [])
          ++ [("billable".data, Json.bool e.billable)]
          ++ projFields
          ++ [("tagIds".data, Json.arr (tagIds.map Json.str))]))

/-- One HTTP call issued through `ClockifyClient._api_call`. -/
structure Request where
  verb : Str
  path : Str
  payload : Json

/-- Per-user time-entries endpoint (used for the close-out `PATCH` and
for retrieval). -/
def userEntriesPath (ws uid : Str) : Str :=
  "workspaces/".data ++ ws ++ "/user/".data ++ uid ++ "/time-entries".data

/-- Workspace time-entries endpoint (used for the creating `POST`). -/
def wsEntriesPath (ws : Str) : Str :=
  "workspaces/".data ++ ws ++ "/time-entries".data

/-- `ClockifyClient.add_entries`: entries are serialized and submitted
one at a time in order; a null-start entry goes out as a `patch` to
the per-user endpoint, any other as a `post` to the workspace
endpoint; each response's id is collected.  The result pairs the
outcome (the collected ids, or the first error) with the trace of
requests actually issued before any failure; `respId` is the oracle
giving the `id` field of each response. -/
def add_entries (ws uid : Str) (projects tags : List (Str × Str))
    (respId : Request → Str) :
    List (Entry AwareDT) → Except SerErr (List Str) × List Request
  | [] => (.ok [], [])
  | e :: rest =>
    match e.serialize projects tags with
    | .error err => (.error err, [])
    | .ok data =>
      let req : Request :=
        if e.start = none
        then ⟨"patch".data, userEntriesPath ws uid, data⟩
        else ⟨"post".data, wsEntriesPath ws, data⟩
      let (res, reqs) := add_entries ws uid projects tags respId rest
      (match res with
       | .ok ids => .ok (respId req :: ids)
       | .error err => .error err,
       req :: reqs)

/-- `ClockifyClient.validate`: each referenced tag name is checked
against the tag catalog in order (the error names only the unknown
tag), then the project name against the project catalog (the error
also lists the known project names). -/
def validateTags (tagsCat : List (Str × Str)) : List Str → Except Str Unit
  | [] => .ok ()
  | t :: rest =>
    if (lookupCat tagsCat t).isNone then
      .error ("Unknown tag ".data ++ t)
    else validateTags tagsCat rest

/-- Project half of `ClockifyClient.validate`, plus the tag loop. -/
def validate (projectsCat tagsCat : List (Str × Str)) (tags : List Str)
    (project : Option Str) : Except Str Unit := do
  validateTags tagsCat tags
  match project with
  | some p =>
    if (lookupCat projectsCat p).isNone then
      .error ("Unknown project ".data ++ p
        ++ "\nAvailable projects: [yellow]".data
        ++ joinSep ", ".data (projectsCat.map (·.1)) ++ "[/yellow]".data)
    else .ok ()
  | none => .ok ()

/-- Errors escaping the submission phase of `main.run`: a usage error
from `validate`, or an uncaught serialization exception. -/
inductive RunErr where
  | usage (msg : Str)
  | ser (e : SerErr)
deriving DecidableEq

/-- The submission phase of `main.run` (lines 39-43): with a non-empty
entry list, `validate` runs first and `add_entries` is only reached
when it passes; with no entries nothing is submitted.  The request
trace records every mutation call actually attempted. -/
def run_submit (ws uid : Str) (projects tags : List (Str × Str))
    (respId : Request → Str) (ptags : List Str) (project : Option Str)
    (entries : List (Entry AwareDT)) :
    Except RunErr (List Str) × List Request :=
  if entries.isEmpty then (.ok [], [])
  else
    match validate projects tags ptags project with
    | .error e => (.error (.usage e), [])
    | .ok _ =>
      let (res, reqs) := add_entries ws uid projects tags respId entries
      (match res with
       | .ok ids => .ok ids
       | .error err => .error (.ser err), reqs)

/-- Query parameters built by `ClockifyClient._get_entries`: both
bounds go through `to_iso_timestamp` with the user's profile timezone,
not UTC. -/
def get_entries_params (user_tz : Int) (start end_ : AwareDT) :
    List (Str × IsoOut) :=
  [("start".data, to_iso_timestamp start user_tz),
   ("end".data, to_iso_timestamp end_ user_tz)]

/-! Propositional transcription of the timespan regular expression
`(\d\d?:\d\d?|/|now)-(\d\d?:\d\d?|/|now)` under `re.fullmatch`, used
to relate the executable classifier to the source's regex. -/

/-- One or two decimal digits (`\d\d?`), as a proposition. -/
def DigitRunRe (l : Str) : Prop :=
  (l.length = 1 ∨ l.length = 2) ∧ ∀ c ∈ l, c.isDigit = true

/-- Full match of `\d\d?:\d\d?`. -/
def HHMMRe (s : Str) : Prop :=
  ∃ h m, s = h ++ ':' :: m ∧ DigitRunRe h ∧ DigitRunRe m

/-- Full match of `(\d\d?:\d\d?|/|now)`. -/
def TimePartRe (s : Str) : Prop :=
  s = "/".data ∨ s = "now".data ∨ HHMMRe s

/-- Full match of the whole timespan regular expression. -/
def TimespanRe (s : Str) : Prop :=
  ∃ a b, s = a ++ '-' :: b ∧ TimePartRe a ∧ TimePartRe b

/-- Concrete environment used to evaluate the parser at specific
inputs: "today" is day 738000, the current time 13:37:05, and the
external date-parsing capability resolves `y` to the previous day and
`t` to today, both at midnight. -/
def sampleEnv : Env :=
  { now := ⟨738000, ⟨13, 37, 5⟩⟩
    dateparse := fun s =>
      if s = "y".data then some ⟨737999, Time.midnight⟩
      else if s = "t".data then some ⟨738000, Time.midnight⟩
      else none }

/-- Contiguous-segment ("substring") relation on character lists. -/
def SubSeg (a b : Str) : Prop := ∃ p q, b = p ++ a ++ q

/-- Executable check that `a` is an initial segment of `b`. -/
def leadsWith : Str → Str → Bool
  | [], _ => true
  | _ :: _, [] => false
  | a :: as, b :: bs => a = b && leadsWith as bs

/-- Executable substring search realizing `SubSeg`. -/
def hasSeg (a : Str) : Str → Bool
  | [] => leadsWith a []
  | b :: bs => leadsWith a (b :: bs) || hasSeg a bs

/-- Top-level fields of a JSON object (empty for non-objects). -/
def jFields : Json → List (Str × Json)
  | .obj fs => fs
  | _ => []

/-- Close-out entry used to exercise the submission path: no start,
an end one hour into the epoch. -/
def closeOutEntry : Entry AwareDT := { start := none, end_ := some ⟨3600, 0⟩ }

/-- Opening entry used to exercise the submission path. -/
def newEntry : Entry AwareDT := { start := some ⟨7200, 0⟩ }

/-! Correctness lemmas for `splitOnChar`. -/

theorem splitOnChar_ne_nil (c : Char) (s : Str) : splitOnChar c s ≠ [] := by
  cases s with
  | nil => simp [splitOnChar]
  | cons x xs =>
    simp only [splitOnChar]
    cases splitOnChar c xs with
    | nil => simp
    | cons y ys =>
      by_cases h : x = c <;> simp [h]

theorem splitOnChar_eq_single (c : Char) (s t : Str)
    (h : splitOnChar c s = [t]) : s = t ∧ c ∉ t := by
  induction s generalizing t with
  | nil =>
    simp only [splitOnChar, List.cons.injEq, and_true] at h
    subst h
    simp
  | cons x xs ih =>
    simp only [splitOnChar] at h
    rcases hs : splitOnChar c xs with _ | ⟨y, ys⟩
    · exact absurd hs (splitOnChar_ne_nil c xs)
    · rw [hs] at h
      by_cases hx : x = c
      · simp [hx] at h
      · simp only [if_neg hx, List.cons.injEq] at h
        obtain ⟨ht, hys⟩ := h
        obtain ⟨hxs, hcy⟩ := ih y (by rw [hs, hys])
        constructor
        · rw [← ht, hxs]
        · rw [← ht]
          intro hmem
          rcases List.mem_cons.mp hmem with hcx | hcy'

          · exact hx hcx.symm
          · exact hcy hcy'

theorem splitOnChar_eq_pair (c : Char) (s a b : Str)
    (h : splitOnChar c s = [a, b]) : s = a ++ c :: b ∧ c ∉ a ∧ c ∉ b := by
  induction s generalizing a with
  | nil => simp [splitOnChar] at h
  | cons x xs ih =>
    simp only [splitOnChar] at h
    rcases hs : splitOnChar c xs with _ | ⟨y, ys⟩
    · exact absurd hs (splitOnChar_ne_nil c xs)
    · rw [hs] at h
      by_cases hx : x = c
      · simp only [if_pos hx, List.cons.injEq] at h
        obtain ⟨ha, hy, hys⟩ := h
        obtain ⟨hxs, hcb⟩ := splitOnChar_eq_single c xs b (by rw [hs, hy, hys])
        subst hx
        subst ha
        simp [hxs, hcb]
      · simp only [if_neg hx, List.cons.injEq] at h
        obtain ⟨ha, htl⟩ := h
        obtain ⟨hxs, hca, hcb⟩ := ih y (by rw [hs, htl])
        refine ⟨?_, ?_, hcb⟩
        · rw [← ha, hxs]
          simp
        · rw [← ha]
          intro hmem
          rcases List.mem_cons.mp hmem with hcx | hcy'
          · exact hx hcx.symm
          · exact hca hcy'

theorem splitOnChar_of_not_mem (c : Char) (s : Str) (h : c ∉ s) :
    splitOnChar c s = [s] := by
  induction s with
  | nil => simp [splitOnChar]
  | cons x xs ih =>
    simp only [List.mem_cons, not_or] at h
    have hx : ¬ (x = c) := fun hh => h.1 hh.symm
    simp only [splitOnChar, ih h.2, if_neg hx]

theorem splitOnChar_append_cons (c : Char) (a b : Str) (ha : c ∉ a) :
    splitOnChar c (a ++ c :: b) = a :: splitOnChar c b := by
  induction a with
  | nil =>
    simp only [List.nil_append, splitOnChar]
    rcases hs : splitOnChar c b with _ | ⟨y, ys⟩
    · exact absurd hs (splitOnChar_ne_nil c b)
    · simp
  | cons x xs ih =>
    simp only [List.mem_cons, not_or] at ha
    have hx : ¬ (x = c) := fun hh => ha.1 hh.symm
    simp only [List.cons_append, splitOnChar, List.append_eq, ih ha.2,
      if_neg hx]

theorem splitOnChar_pair_of_decomp (c : Char) (a b : Str)
    (ha : c ∉ a) (hb : c ∉ b) : splitOnChar c (a ++ c :: b) = [a, b] := by
  rw [splitOnChar_append_cons c a b ha, splitOnChar_of_not_mem c b hb]

/-! Equivalence of the executable classifier with the regular
expression, and shape facts about matched tokens. -/

theorem digitRun_iff (l : Str) : digitRun l = true ↔ DigitRunRe l := by
  simp [digitRun, DigitRunRe, List.all_eq_true]

theorem digitRunRe_mem (l : Str) (h : DigitRunRe l) (c : Char) (hc : c ∈ l) :
    c.isDigit = true := h.2 c hc

theorem hhmmPat_iff (s : Str) : hhmmPat s = true ↔ HHMMRe s := by
  constructor
  · intro h
    unfold hhmmPat at h
    rcases hs : splitOnChar ':' s with _ | ⟨x, xs⟩
    · exact absurd hs (splitOnChar_ne_nil ':' s)
    · rw [hs] at h
      rcases xs with _ | ⟨y, ys⟩
      · simp at h
      · rcases ys with _ | ⟨z, zs⟩
        · simp only [Bool.and_eq_true] at h
          obtain ⟨hdec, _, _⟩ := splitOnChar_eq_pair ':' s x y hs
          exact ⟨x, y, hdec, (digitRun_iff x).mp h.1, (digitRun_iff y).mp h.2⟩
        · simp at h
  · rintro ⟨h, m, rfl, hh, hm⟩
    have hch : ':' ∉ h := fun hc => by
      have := digitRunRe_mem h hh ':' hc
      simp at this
    have hcm : ':' ∉ m := fun hc => by
      have := digitRunRe_mem m hm ':' hc
      simp at this
    unfold hhmmPat
    rw [splitOnChar_pair_of_decomp ':' h m hch hcm]
    simp [(digitRun_iff h).mpr hh, (digitRun_iff m).mpr hm]

theorem timePart_iff (s : Str) : timePart s = true ↔ TimePartRe s := by
  simp [timePart, TimePartRe, hhmmPat_iff, or_assoc]

theorem timePartRe_no_dash (s : Str) (h : TimePartRe s) : '-' ∉ s := by
  rcases h with h | h | ⟨hh, hm, rfl, hdh, hdm⟩
  · subst h; decide
  · subst h; decide
  · intro hmem
    rcases List.mem_append.mp hmem with hin | hin
    · have := digitRunRe_mem hh hdh '-' hin
      simp at this
    · rcases List.mem_cons.mp hin with hc | hin
      · simp at hc
      · have := digitRunRe_mem hm hdm '-' hin
        simp at this

theorem timespanFullmatch_iff (s : Str) :
    timespanFullmatch s = true ↔ TimespanRe s := by
  constructor
  · intro h
    unfold timespanFullmatch at h
    rcases hs : splitOnChar '-' s with _ | ⟨x, xs⟩
    · exact absurd hs (splitOnChar_ne_nil '-' s)
    · rw [hs] at h
      rcases xs with _ | ⟨y, ys⟩
      · simp at h
      · rcases ys with _ | ⟨z, zs⟩
        · simp only [Bool.and_eq_true] at h
          obtain ⟨hdec, _, _⟩ := splitOnChar_eq_pair '-' s x y hs
          exact ⟨x, y, hdec, (timePart_iff x).mp h.1, (timePart_iff y).mp h.2⟩
        · simp at h
  · rintro ⟨a, b, rfl, hta, htb⟩
    unfold timespanFullmatch
    rw [splitOnChar_pair_of_decomp '-' a b (timePartRe_no_dash a hta)
      (timePartRe_no_dash b htb)]
    simp [(timePart_iff a).mpr hta, (timePart_iff b).mpr htb]

theorem digitRun_head (c : Char) (l : Str) (h : digitRun (c :: l) = true) :
    c.isDigit = true := by
  simp only [digitRun, Bool.and_eq_true, List.all_eq_true] at h
  exact h.2 c (List.mem_cons_self c l)

theorem timePart_head (c : Char) (l : Str) (h : timePart (c :: l) = true) :
    c = '/' ∨ c = 'n' ∨ c.isDigit = true := by
  rcases (timePart_iff _).mp h with h | h | ⟨hh, hm, heq, hdh, hdm⟩
  · left
    have : c = '/' ∧ l = [] := by
      have := h
      simp only [List.cons.injEq] at this
      exact ⟨this.1, this.2⟩
    exact this.1
  · right; left
    have := h
    simp only [List.cons.injEq] at this
    exact this.1
  · right; right
    rcases hh with _ | ⟨d, ds⟩
    · rcases hdh.1 with h1 | h1 <;> simp at h1
    · simp only [List.cons_append, List.cons.injEq] at heq
      rw [heq.1]
      exact digitRunRe_mem _ hdh d (List.mem_cons_self d ds)

theorem except_bind_err {ε α β : Type} (e : ε) (f : α → Except ε β) :
    (Except.error e : Except ε α) >>= f = .error e := rfl

theorem except_bind_ok {ε α β : Type} (a : α) (f : α → Except ε β) :
    (Except.ok a : Except ε α) >>= f = f a := rfl

theorem processTokens_nil (env : Env) (st : PState) :
    processTokens env st [] = .ok st := rfl

theorem processTokens_cons (env : Env) (st : PState) (t : Str)
    (ts : List Str) :
    processTokens env st (t :: ts) =
      classifyStep env st t >>= fun s => processTokens env s ts := rfl

theorem processTokens_append (env : Env) (st : PState) (l1 l2 : List Str) :
    processTokens env st (l1 ++ l2) =
      processTokens env st l1 >>= fun s => processTokens env s l2 := by
  induction l1 generalizing st with
  | nil => simp [processTokens_nil, except_bind_ok]
  | cons x xs ih =>
    rw [List.cons_append, processTokens_cons, processTokens_cons]
    cases classifyStep env st x with
    | error e => rw [except_bind_err, except_bind_err, except_bind_err]
    | ok s =>
      rw [except_bind_ok, except_bind_ok]
      exact ih s

theorem timespanFullmatch_cons_false (c : Char) (l : Str) (h1 : c ≠ '/')
    (h2 : c ≠ 'n') (h3 : c.isDigit = false) (h4 : c ≠ '-') :
    timespanFullmatch (c :: l) = false := by
  unfold timespanFullmatch
  rcases hs : splitOnChar '-' l with _ | ⟨y, ys⟩
  · exact absurd hs (splitOnChar_ne_nil '-' l)
  · simp only [splitOnChar, hs, if_neg h4]
    rcases ys with _ | ⟨z, zs⟩
    · rfl
    · rcases zs with _ | _
      · have : timePart (c :: y) = false := by
          cases htp : timePart (c :: y)
          · rfl
          · rcases timePart_head c y htp with hc | hc | hc
            · exact absurd hc h1
            · exact absurd hc h2
            · rw [h3] at hc; cases hc
        simp [this]
      · rfl

theorem classifyStep_timespan (env : Env) (st : PState) (arg : Str)
    (h : timespanFullmatch arg = true) :
    classifyStep env st arg = parse_timespan env st arg := by
  unfold classifyStep
  rw [h]
  simp

theorem classifyStep_project (env : Env) (st : PState) (p : Str) :
    classifyStep env st ('@' :: p) = parse_project st p := by
  have ht := timespanFullmatch_cons_false '@' p (by decide) (by decide)
    (by decide) (by decide)
  unfold classifyStep
  rw [ht]
  simp

theorem classifyStep_date (env : Env) (st : PState) (p : Str) :
    classifyStep env st ('.' :: p) = parse_date env st p := by
  have ht := timespanFullmatch_cons_false '.' p (by decide) (by decide)
    (by decide) (by decide)
  unfold classifyStep
  rw [ht]
  simp

theorem classifyStep_workspace (env : Env) (st : PState) (p : Str) :
    classifyStep env st ('^' :: p) = parse_workspace st p := by
  have ht := timespanFullmatch_cons_false '^' p (by decide) (by decide)
    (by decide) (by decide)
  unfold classifyStep
  rw [ht]
  simp

theorem classifyStep_start (env : Env) (st : PState) :
    classifyStep env st "start".data = parse_timespan env st "now-/".data :=
  rfl

theorem classifyStep_stop (env : Env) (st : PState) :
    classifyStep env st "stop".data = parse_timespan env st "/-now".data :=
  rfl

theorem parse_of_processTokens_err (env : Env) (inputs : List Str)
    (dumpArg : Option Str) (e : PErr)
    (h : processTokens env (initState env) inputs = .error e) :
    parse env inputs dumpArg = .error e := by
  unfold parse
  rw [h, except_bind_err]

theorem parse_of_processTokens_ok (env : Env) (inputs : List Str)
    (dumpArg : Option Str) (st : PState)
    (h : processTokens env (initState env) inputs = .ok st) :
    parse env inputs dumpArg = assembleAndCheck env dumpArg st := by
  unfold parse
  rw [h, except_bind_ok]

/-- C1: evaluating the embedded `ArgumentParser.parse` at the input
`start @work +urgent` shows that the single draft carries the global
description, billable flag and project, and `start = now`,
`end = None` — but its tag list is empty, while the tags collected by
the parser are `["urgent"]`: `parse` never passes `self.tags` to the
`Entry` constructor, so no draft ever carries the collected tags,
contradicting the parser docstring ("+tag  Add the given tag to all
specified time entries") and the spec. -/
theorem c1_parser_drops_tags_from_drafts :
    (parse sampleEnv ["start".data, "@work".data, "+urgent".data] none).map
      (fun r => (r.entries, r.tags)) =
    .ok ([{ start := some ⟨738000, ⟨13, 37, 5⟩⟩
            end_ := none
            description := some []
            billable := false
            project := some "work".data
            tags := [] }], ["urgent".data]) ∧
    ["urgent".data] ≠ ([] : List Str) := ⟨rfl, by decide⟩

theorem parse_time_now_err (env : Env) (st : PState)
    (hdate : st.date ≠ env.now.date) :
    parse_time env st "now".data =
      .error (.usage "Can\x27t combine \x27now\x27 with different date".data) := by
  simp [parse_time, hdate]

theorem parse_timespan_pair (env : Env) (st : PState) (arg a b : Str)
    (h : splitOnChar '-' arg = [a, b]) :
    parse_timespan env st arg =
      (parse_time env st a >>= fun start_time =>
       parse_time env st b >>= fun end_time =>
       if start_time = none ∧ end_time = none then
         .error (.usage "Either start or end time needs to be given".data)
       else
         .ok { st with
               timespans := st.timespans ++ [(start_time, end_time)] }) := by
  unfold parse_timespan
  rw [h]

theorem parse_timespan_now_err (env : Env) (st : PState) (arg a b : Str)
    (hsplit : splitOnChar '-' arg = [a, b])
    (hdate : st.date ≠ env.now.date)
    (hcase : a = "now".data ∨
      ((parse_time env st a).isOk = true ∧ b = "now".data)) :
    parse_timespan env st arg =
      .error (.usage "Can\x27t combine \x27now\x27 with different date".data) := by
  rw [parse_timespan_pair env st arg a b hsplit]
  rcases hcase with ha | ⟨hok, hb⟩
  · subst ha
    rw [parse_time_now_err env st hdate, except_bind_err]
  · subst hb
    cases hpt : parse_time env st a with
    | error e => rw [hpt] at hok; cases hok
    | ok v =>
      simp only [except_bind_ok]
      rw [parse_time_now_err env st hdate]
      simp only [except_bind_err]

/-- C4 counterexample: in the invocation `start .y` the literal `now`
(via the `start` alias) is used together with a target date different
from today, yet parsing succeeds — the order of the tokens matters,
refuting "regardless of the order in which the `now` token and the
date token appear".  The resulting draft even combines yesterday's
date with the current wall-clock time. -/
theorem c4_counterexample :
    (parse sampleEnv ["start".data, ".y".data] none).map
      (fun r => (r.date, r.entries.map (fun e => e.start))) =
      .ok (737999, [some ⟨737999, ⟨13, 37, 5⟩⟩]) ∧
    sampleEnv.now.date = 738000 := ⟨rfl, rfl⟩

/-- C4 amended: the combination of `now` with a different target date
fails exactly when the date token has already been consumed when the
`now` token is parsed: for every invocation whose prefix leaves the
parser on a date different from today, a following `now`-bearing
timespan token (a `start` or `stop` alias, or a regex-matched timespan
whose start is `now`, or whose start parses and whose end is `now`)
makes the whole parse fail with the usage error, whatever follows. -/
theorem c4_amended (env : Env) (pre rest : List Str) (dumpArg : Option Str)
    (st : PState) (tok : Str)
    (hpre : processTokens env (initState env) pre = .ok st)
    (hdate : st.date ≠ env.now.date)
    (htok : tok = "start".data ∨ tok = "stop".data ∨
      (timespanFullmatch tok = true ∧
        ∃ a b, splitOnChar '-' tok = [a, b] ∧
          (a = "now".data ∨
            ((parse_time env st a).isOk = true ∧ b = "now".data)))) :
    parse env (pre ++ tok :: rest) dumpArg =
      .error (.usage "Can\x27t combine \x27now\x27 with different date".data) := by
  have hstep : classifyStep env st tok =
      .error (.usage "Can\x27t combine \x27now\x27 with different date".data) := by
    rcases htok with h | h | ⟨hm, a, b, hsplit, hcase⟩
    · subst h
      rw [classifyStep_start]
      exact parse_timespan_now_err env st "now-/".data "now".data "/".data
        (by decide) hdate (Or.inl rfl)
    · subst h
      rw [classifyStep_stop]
      exact parse_timespan_now_err env st "/-now".data "/".data "now".data
        (by decide) hdate (Or.inr ⟨rfl, rfl⟩)
    · rw [classifyStep_timespan env st tok hm]
      exact parse_timespan_now_err env st tok a b hsplit hdate hcase
  have hproc : processTokens env (initState env) (pre ++ tok :: rest) =
      .error (.usage "Can\x27t combine \x27now\x27 with different date".data) := by
    rw [processTokens_append, hpre, except_bind_ok, processTokens_cons,
      hstep, except_bind_err]
  exact parse_of_processTokens_err env _ dumpArg _ hproc

/-- C4 witness: the amended statement applied to the concrete
invocation `.y stop`, whose date token precedes the `now` alias. -/
theorem c4_amended_witness :
    parse sampleEnv [".y".data, "stop".data] none =
      .error (.usage "Can\x27t combine \x27now\x27 with different date".data) :=
  c4_amended sampleEnv [".y".data] [] none
    { timespans := [], description := [], billable := false, date := 737999
      tags := [], project := none, workspace := none }
    "stop".data rfl (by decide) (Or.inr (Or.inl rfl))

/-- C8 counterexample: the invocation `.t .y` contains two date
tokens; the first resolves to today's date, and the second is then
consumed without any "multiple dates" error (the guard only compares
the current target date with today), refuting "including when the
first date token resolved to today's date". -/
theorem c8_counterexample :
    (parse sampleEnv [".t".data, ".y".data] none).map (fun r => r.date) =
      .ok 737999 ∧
    sampleEnv.dateparse "t".data = some ⟨738000, Time.midnight⟩ ∧
    sampleEnv.now.date = 738000 := ⟨rfl, rfl, rfl⟩

/-- C8 amended: a later `.date` token fails with the "multiple dates"
usage error exactly when an earlier date token moved the target date
away from today: for every invocation whose prefix leaves the parser
on a date different from today, any following `.`-prefixed token makes
the whole parse fail with "Multiple dates", whatever its payload and
whatever follows. -/
theorem c8_amended (env : Env) (pre rest : List Str) (dumpArg : Option Str)
    (st : PState) (payload : Str)
    (hpre : processTokens env (initState env) pre = .ok st)
    (hdate : st.date ≠ env.now.date) :
    parse env (pre ++ ('.' :: payload) :: rest) dumpArg =
      .error (.usage "Multiple dates".data) := by
  have hstep : classifyStep env st ('.' :: payload) =
      .error (.usage "Multiple dates".data) := by
    rw [classifyStep_date]
    unfold parse_date
    rw [if_pos hdate]
  have hproc : processTokens env (initState env)
      (pre ++ ('.' :: payload) :: rest) =
      .error (.usage "Multiple dates".data) := by
    rw [processTokens_append, hpre, except_bind_ok, processTokens_cons,
      hstep, except_bind_err]
  exact parse_of_processTokens_err env _ dumpArg _ hproc

/-- C8 witness: the amended statement applied to the concrete
invocation `.y .t`, whose first date token resolves to yesterday. -/
theorem c8_amended_witness :
    parse sampleEnv [".y".data, ".t".data] none =
      .error (.usage "Multiple dates".data) :=
  c8_amended sampleEnv [".y".data] [] none
    { timespans := [], description := [], billable := false, date := 737999
      tags := [], project := none, workspace := none }
    "t".data rfl (by decide)

/-- C9: repeated `@project` sigils never error and the last payload
wins (shown both for the single classification step, which
unconditionally overwrites the project, and for a two-token `@` run),
whereas a `^workspace` sigil errors with the "multiple workspaces"
usage error whenever a workspace is already set. -/
theorem c9_project_last_wins_workspace_errs :
    (∀ (st : PState) (p : Str),
      parse_project st p = .ok { st with project := some p }) ∧
    (∀ (env : Env) (st : PState) (p₁ p₂ : Str),
      processTokens env st ['@' :: p₁, '@' :: p₂] =
        .ok { st with project := some p₂ }) ∧
    (∀ (st : PState) (w p : Str), st.workspace = some w →
      parse_workspace st p =
        .error (.usage ("Multiple workspaces: ".data ++ w
          ++ ", ".data ++ p))) := by
  refine ⟨fun st p => rfl, fun env st p₁ p₂ => ?_, fun st w p hw => ?_⟩
  · rw [processTokens_cons, classifyStep_project]
    unfold parse_project
    rw [except_bind_ok, processTokens_cons, classifyStep_project]
    unfold parse_project
    rw [except_bind_ok, processTokens_nil]
  · unfold parse_workspace
    rw [hw]

/-- C9 witness: the pieces of the statement applied at concrete
states: an `@a @b` run ends with project `b` and no error, while a
second workspace `^b` after `^a` fails. -/
theorem c9_witness :
    processTokens sampleEnv (initState sampleEnv)
        ['@' :: "a".data, '@' :: "b".data] =
      .ok { initState sampleEnv with project := some "b".data } ∧
    parse_workspace
        { timespans := [], description := [], billable := false
          date := 738000, tags := [], project := none
          workspace := some "a".data } "b".data =
      .error (.usage ("Multiple workspaces: ".data ++ "a".data
        ++ ", ".data ++ "b".data)) :=
  ⟨c9_project_last_wins_workspace_errs.2.1 sampleEnv (initState sampleEnv)
      "a".data "b".data,
   c9_project_last_wins_workspace_errs.2.2 _ "a".data "b".data rfl⟩

theorem strptimeHM_shape (s : Str) :
    (∃ t, strptimeHM s = .ok t) ∨
      strptimeHM s =
        .error ("time data ".data ++ s
          ++ " does not match format %H:%M".data) := by
  unfold strptimeHM
  split
  · split
    · split
      · exact Or.inl ⟨_, rfl⟩
      · exact Or.inr rfl
    · exact Or.inr rfl
  · exact Or.inr rfl

theorem strptimeHM_err_shape (s : Str) (e : Str)
    (h : strptimeHM s = .error e) :
    e = "time data ".data ++ s ++ " does not match format %H:%M".data := by
  rcases strptimeHM_shape s with ⟨t, ht⟩ | hh
  · rw [ht] at h
    cases h
  · rw [hh] at h
    injection h with h2
    exact h2.symm

theorem parse_time_err_shape (env : Env) (st : PState) (s : Str) (err : PErr)
    (h : parse_time env st s = .error err) :
    ∃ m, err = .usage m ∧
      (m = "Can\x27t combine \x27now\x27 with different date".data ∨
       m = "time data ".data ++ s
         ++ " does not match format %H:%M".data) := by
  unfold parse_time at h
  by_cases h1 : s = "now".data
  · rw [if_pos h1] at h
    by_cases h2 : st.date ≠ env.now.date
    · rw [if_pos h2] at h
      cases h
      exact ⟨_, rfl, Or.inl rfl⟩
    · rw [if_neg h2] at h
      cases h
  · rw [if_neg h1] at h
    by_cases h2 : s = "/".data
    · rw [if_pos h2] at h
      cases h
    · rw [if_neg h2] at h
      cases hm : strptimeHM s with
      | ok t => rw [hm] at h; cases h
      | error e =>
        rw [hm] at h
        cases h
        exact ⟨e, rfl, Or.inr (strptimeHM_err_shape s e hm)⟩

/-- C10: every token the classification step hands to the timespan
parser — a full match of the timespan regular expression, or one of
one of the two fixed alias strings substituted for `start`/`stop` —
contains exactly one dash, so splitting on the dash yields exactly two
parts and `_parse_timespan` can never return the "too many '-'" usage
error for such a token. -/
theorem c10_too_many_dashes_unreachable :
    ∀ arg : Str,
      (TimespanRe arg ∨ arg = "now-/".data ∨ arg = "/-now".data) →
      arg.count '-' = 1 ∧
      (∃ a b, splitOnChar '-' arg = [a, b]) ∧
      ∀ (env : Env) (st : PState), parse_timespan env st arg ≠
        .error (.usage ("Couldn\x27t parse timespan ".data ++ arg
          ++ " (too many \x27-\x27)".data)) := by
  intro arg harg
  have hsplit : ∃ a b, splitOnChar '-' arg = [a, b] := by
    rcases harg with ⟨a, b, rfl, hta, htb⟩ | rfl | rfl
    · exact ⟨a, b, splitOnChar_pair_of_decomp '-' a b
        (timePartRe_no_dash a hta) (timePartRe_no_dash b htb)⟩
    · exact ⟨"now".data, "/".data, by decide⟩
    · exact ⟨"/".data, "now".data, by decide⟩
  have hcount : arg.count '-' = 1 := by
    rcases harg with ⟨a, b, rfl, hta, htb⟩ | rfl | rfl
    · rw [List.count_append, List.count_cons_self,
        List.count_eq_zero_of_not_mem (timePartRe_no_dash a hta),
        List.count_eq_zero_of_not_mem (timePartRe_no_dash b htb)]
    · decide
    · decide
  refine ⟨hcount, hsplit, ?_⟩
  intro env st h
  obtain ⟨a, b, hab⟩ := hsplit
  rw [parse_timespan_pair env st arg a b hab] at h
  cases hpa : parse_time env st a with
  | error e =>
    rw [hpa, except_bind_err] at h
    obtain ⟨m, rfl, hm⟩ := parse_time_err_shape env st a e hpa
    simp only [Except.error.injEq, PErr.usage.injEq] at h
    rcases hm with rfl | rfl <;> simp at h
  | ok v =>
    rw [hpa] at h
    simp only [except_bind_ok] at h
    cases hpb : parse_time env st b with
    | error e =>
      rw [hpb, except_bind_err] at h
      obtain ⟨m, rfl, hm⟩ := parse_time_err_shape env st b e hpb
      simp only [Except.error.injEq, PErr.usage.injEq] at h
      rcases hm with rfl | rfl <;> simp at h
    | ok w =>
      rw [hpb] at h
      simp only [except_bind_ok] at h
      by_cases hc : v = none ∧ w = none
      · rw [if_pos hc] at h
        simp only [Except.error.injEq, PErr.usage.injEq] at h
        simp at h
      · rw [if_neg hc] at h
        cases h

/-- C10 witness: the statement applied to the clock-in alias token
(now to slash) and a concrete parser state. -/
theorem c10_witness :
    ("now-/".data.count '-' = 1 ∧
      (∃ a b, splitOnChar '-' "now-/".data = [a, b])) ∧
    parse_timespan sampleEnv (initState sampleEnv) "now-/".data ≠
      .error (.usage ("Couldn\x27t parse timespan ".data ++ "now-/".data
        ++ " (too many \x27-\x27)".data)) :=
  ⟨⟨(c10_too_many_dashes_unreachable "now-/".data (Or.inr (Or.inl rfl))).1,
    (c10_too_many_dashes_unreachable "now-/".data (Or.inr (Or.inl rfl))).2.1⟩,
   (c10_too_many_dashes_unreachable "now-/".data
     (Or.inr (Or.inl rfl))).2.2 sampleEnv (initState sampleEnv)⟩

theorem buildEntries_any_false (st : PState)
    (h : ∀ ts ∈ st.timespans, ts.1 = none) :
    (buildEntries st).any (fun e => e.start ≠ none) = false := by
  rw [List.any_eq_false]
  intro e he
  rw [buildEntries, List.mem_map] at he
  obtain ⟨ts, hts, rfl⟩ := he
  simp [combine_date, h ts hts]

/-- C7: whenever the token loop leaves the parser with no opening
timespan (every collected timespan has a null start, so no draft has a
non-null start) and a parseable `--dump` argument, a non-empty
description, a set billable flag, a truthy project, or a non-empty tag
list makes the parse fail with a "given without new entries" usage
error whose message names an offending field that is indeed set, in
the source's priority order. -/
theorem c7_fields_require_new_entries (env : Env) (inputs : List Str)
    (dumpArg : Option Str) (st : PState)
    (hok : processTokens env (initState env) inputs = .ok st)
    (hnostart : ∀ ts ∈ st.timespans, ts.1 = none)
    (hdump : ∃ dump, dumpParse dumpArg = .ok dump)
    (hfield : st.description ≠ [] ∨ st.billable = true ∨
      (∃ p, st.project = some p ∧ p ≠ []) ∨ st.tags ≠ []) :
    ∃ m, parse env inputs dumpArg = .error (.usage m) ∧
      ((st.description ≠ [] ∧
        m = "Description ".data ++ st.description
          ++ " given without new entries".data) ∨
       (st.billable = true ∧
        m = "Billable given without new entries".data) ∨
       (∃ p, st.project = some p ∧ p ≠ [] ∧
        m = "Project ".data ++ p ++ " given without new entries".data) ∨
       (st.tags ≠ [] ∧
        m = "Tags ".data ++ pyListRepr st.tags
          ++ " given without new entries".data)) := by
  obtain ⟨dump, hdp⟩ := hdump
  rw [parse_of_processTokens_ok env inputs dumpArg st hok]
  unfold assembleAndCheck
  rw [hdp, buildEntries_any_false st hnostart]
  simp only [Bool.false_eq_true, if_false]
  by_cases hd : st.description ≠ []
  · refine ⟨_, ?_, Or.inl ⟨hd, rfl⟩⟩
    have hn : noNewEntriesCheck st =
        .error (.usage ("Description ".data ++ st.description
          ++ " given without new entries".data)) := by
      unfold noNewEntriesCheck
      rw [if_pos hd]
    rw [hn]
  · by_cases hb : st.billable = true
    · refine ⟨_, ?_, Or.inr (Or.inl ⟨hb, rfl⟩)⟩
      have hn : noNewEntriesCheck st =
          .error (.usage "Billable given without new entries".data) := by
        unfold noNewEntriesCheck
        rw [if_neg hd, if_pos hb]
      rw [hn]
    · by_cases hp : (match st.project with
          | some p => decide (p ≠ [])
          | none => false) = true
      · obtain ⟨p, hps, hpne⟩ : ∃ p, st.project = some p ∧ p ≠ [] := by
          cases hsp : st.project with
          | none => rw [hsp] at hp; simp at hp
          | some p =>
            rw [hsp] at hp
            simp only [decide_eq_true_eq] at hp
            exact ⟨p, rfl, hp⟩
        refine ⟨_, ?_, Or.inr (Or.inr (Or.inl ⟨p, hps, hpne, rfl⟩))⟩
        have hn : noNewEntriesCheck st =
            .error (.usage ("Project ".data ++ p
              ++ " given without new entries".data)) := by
          unfold noNewEntriesCheck
          rw [if_neg hd, if_neg hb, if_pos hp, hps]
        rw [hn]
      · have ht : st.tags ≠ [] := by
          rcases hfield with h | h | ⟨p, hps, hpne⟩ | h
          · exact absurd h hd
          · exact absurd h hb
          · exact absurd (by rw [hps]; simp [hpne]) hp
          · exact h
        refine ⟨_, ?_, Or.inr (Or.inr (Or.inr ⟨ht, rfl⟩))⟩
        have hn : noNewEntriesCheck st =
            .error (.usage ("Tags ".data ++ pyListRepr st.tags
              ++ " given without new entries".data)) := by
          unfold noNewEntriesCheck
          rw [if_neg hd, if_neg hb, if_neg hp, if_pos ht]
        rw [hn]

/-- C7 witness: the statement applied to the concrete invocation
`stop +x` — which collects one close-only timespan and the tag `x` —
failing with the tags message. -/
theorem c7_witness :
    ∃ m, parse sampleEnv ["stop".data, "+x".data] none =
        .error (.usage m) ∧
      ((([] : Str) ≠ [] ∧
        m = "Description ".data ++ []
          ++ " given without new entries".data) ∨
       (false = true ∧
        m = "Billable given without new entries".data) ∨
       (∃ p, (none : Option Str) = some p ∧ p ≠ [] ∧
        m = "Project ".data ++ p ++ " given without new entries".data) ∨
       (["x".data] ≠ ([] : List Str) ∧
        m = "Tags ".data ++ pyListRepr ["x".data]
          ++ " given without new entries".data)) :=
  c7_fields_require_new_entries sampleEnv ["stop".data, "+x".data] none
    { timespans := [(none, some ⟨13, 37, 5⟩)], description := []
      billable := false, date := 738000, tags := ["x".data]
      project := none, workspace := none }
    rfl (by decide) ⟨none, rfl⟩ (Or.inr (Or.inr (Or.inr (by decide))))

theorem add_entries_trace_shape (ws uid : Str)
    (projects tags : List (Str × Str)) (respId : Request → Str)
    (entries : List (Entry AwareDT)) :
    (add_entries ws uid projects tags respId entries).2.length ≤
      entries.length ∧
    ∀ i (hi : i < (add_entries ws uid projects tags respId entries).2.length)
      (hie : i < entries.length),
      ((entries.get ⟨i, hie⟩).start = none →
        ((add_entries ws uid projects tags respId entries).2.get
            ⟨i, hi⟩).verb = "patch".data ∧
        ((add_entries ws uid projects tags respId entries).2.get
            ⟨i, hi⟩).path = userEntriesPath ws uid) ∧
      ((entries.get ⟨i, hie⟩).start ≠ none →
        ((add_entries ws uid projects tags respId entries).2.get
            ⟨i, hi⟩).verb = "post".data ∧
        ((add_entries ws uid projects tags respId entries).2.get
            ⟨i, hi⟩).path = wsEntriesPath ws) := by
  induction entries with
  | nil =>
    refine ⟨Nat.le_refl _, ?_⟩
    intro i hi hie
    exact absurd hi (by simp [add_entries])
  | cons e rest ih =>
    have hunfold : add_entries ws uid projects tags respId (e :: rest) =
        match e.serialize projects tags with
        | .error err => (.error err, [])
        | .ok data =>
          let req : Request :=
            if e.start = none
            then ⟨"patch".data, userEntriesPath ws uid, data⟩
            else ⟨"post".data, wsEntriesPath ws, data⟩
          let pr := add_entries ws uid projects tags respId rest
          (match pr.1 with
           | .ok ids => .ok (respId req :: ids)
           | .error err => .error err,
           req :: pr.2) := by
      rw [add_entries]
    cases hser : e.serialize projects tags with
    | error err =>
      rw [hser] at hunfold
      rw [hunfold]
      refine ⟨Nat.zero_le _, ?_⟩
      intro i hi hie
      exact absurd hi (by simp)
    | ok data =>
      rw [hser] at hunfold
      rw [hunfold]
      refine ⟨?_, ?_⟩
      · simpa using Nat.succ_le_succ ih.1
      · intro i hi hie
        cases i with
        | zero =>
          constructor
          · intro hstart
            have hstart' : e.start = none := hstart
            simp only [List.get]
            rw [if_pos hstart']
            exact ⟨rfl, rfl⟩
          · intro hstart
            have hstart' : e.start ≠ none := hstart
            simp only [List.get]
            rw [if_neg hstart']
            exact ⟨rfl, rfl⟩
        | succ j =>
          have hj : j < (add_entries ws uid projects tags respId rest).2.length := by
            simpa using hi
          have hje : j < rest.length := by
            simpa using hie
          simpa using ih.2 j hj hje

/-- C2: a close-out entry (`start = None`, `end ≠ None`) serializes to
exactly the one-key `{end}` payload, and in `add_entries` every
request actually issued for a null-start entry is a `patch` to the
per-user time-entries endpoint, while every request issued for a
non-null-start entry is a `post` to the workspace time-entries
endpoint (entries after a failed serialization are never sent, hence
the quantification over the request trace). -/
theorem c2_close_out_patch_create_post :
    (∀ (projects tags : List (Str × Str)) (e : Entry AwareDT) (t : AwareDT),
      e.start = none → e.end_ = some t →
      e.serialize projects tags =
        .ok (.obj [("end".data, .iso (to_iso_timestamp t))])) ∧
    (∀ (ws uid : Str) (projects tags : List (Str × Str))
      (respId : Request → Str) (entries : List (Entry AwareDT))
      i (hi : i < (add_entries ws uid projects tags respId entries).2.length)
      (hie : i < entries.length),
      ((entries.get ⟨i, hie⟩).start = none →
        ((add_entries ws uid projects tags respId entries).2.get
            ⟨i, hi⟩).verb = "patch".data ∧
        ((add_entries ws uid projects tags respId entries).2.get
            ⟨i, hi⟩).path = userEntriesPath ws uid) ∧
      ((entries.get ⟨i, hie⟩).start ≠ none →
        ((add_entries ws uid projects tags respId entries).2.get
            ⟨i, hi⟩).verb = "post".data ∧
        ((add_entries ws uid projects tags respId entries).2.get
            ⟨i, hi⟩).path = wsEntriesPath ws)) := by
  constructor
  · intro projects tags e t hstart hend
    unfold Entry.serialize
    rw [hstart, hend]
  · intro ws uid projects tags respId entries i hi hie
    exact (add_entries_trace_shape ws uid projects tags respId entries).2
      i hi hie

/-- C2 witness: the statement applied to a concrete close-out entry
and a concrete two-entry batch (one close-out, one opening), with
empty catalogs. -/
theorem c2_witness :
    closeOutEntry.serialize [] [] =
      .ok (.obj [("end".data, .iso (to_iso_timestamp ⟨3600, 0⟩))]) ∧
    ((add_entries "w".data "u".data [] [] (fun _ => [])
        [closeOutEntry, newEntry]).2.get
      ⟨0, by decide⟩).verb = "patch".data ∧
    ((add_entries "w".data "u".data [] [] (fun _ => [])
        [closeOutEntry, newEntry]).2.get
      ⟨1, by decide⟩).verb = "post".data :=
  ⟨c2_close_out_patch_create_post.1 [] [] closeOutEntry ⟨3600, 0⟩ rfl rfl,
   ((c2_close_out_patch_create_post.2 "w".data "u".data [] [] (fun _ => [])
      [closeOutEntry, newEntry] 0 (by decide) (by decide)).1 rfl).1,
   ((c2_close_out_patch_create_post.2 "w".data "u".data [] [] (fun _ => [])
      [closeOutEntry, newEntry] 1 (by decide) (by decide)).2
        (by decide)).1⟩

theorem leadsWith_iff (a b : Str) :
    leadsWith a b = true ↔ ∃ t, b = a ++ t := by
  induction a generalizing b with
  | nil => simp [leadsWith]
  | cons x xs ih =>
    cases b with
    | nil => simp [leadsWith]
    | cons y ys =>
      simp only [leadsWith, Bool.and_eq_true, decide_eq_true_eq, ih]
      constructor
      · rintro ⟨rfl, t, rfl⟩
        exact ⟨t, rfl⟩
      · rintro ⟨t, ht⟩
        injection ht with h1 h2
        exact ⟨h1.symm, t, h2⟩

theorem hasSeg_iff (a b : Str) : hasSeg a b = true ↔ SubSeg a b := by
  induction b with
  | nil =>
    simp only [hasSeg, leadsWith_iff, SubSeg]
    constructor
    · rintro ⟨t, ht⟩
      exact ⟨[], t, by simpa using ht⟩
    · rintro ⟨p, q, hpq⟩
      simp only [List.nil_eq, List.append_eq_nil] at hpq
      exact ⟨[], by simp [hpq.1.2, hpq.2]⟩
  | cons y ys ih =>
    simp only [hasSeg, Bool.or_eq_true, ih, leadsWith_iff]
    constructor
    · rintro (⟨t, ht⟩ | ⟨p, q, hpq⟩)
      · exact ⟨[], t, by simpa using ht⟩
      · exact ⟨y :: p, q, by simp [hpq]⟩
    · rintro ⟨p, q, hpq⟩
      cases p with
      | nil => exact Or.inl ⟨q, by simpa using hpq⟩
      | cons z zs =>
        injection hpq with h1 h2
        exact Or.inr ⟨zs, q, h2⟩

theorem subSeg_joinSep (sep : Str) (l : List Str) (x : Str) (hx : x ∈ l) :
    SubSeg x (joinSep sep l) := by
  induction l with
  | nil => cases hx
  | cons y ys ih =>
    rcases List.mem_cons.mp hx with rfl | hx2
    · cases ys with
      | nil => exact ⟨[], [], by simp [joinSep]⟩
      | cons z zs => exact ⟨[], sep ++ joinSep sep (z :: zs), by simp [joinSep]⟩
    · cases ys with
      | nil => cases hx2
      | cons z zs =>
        obtain ⟨p, q, hpq⟩ := ih hx2
        exact ⟨y ++ sep ++ p, q, by simp [joinSep, hpq]⟩

theorem subSeg_within (a b x y : Str) (h : SubSeg a b) :
    SubSeg a (x ++ b ++ y) := by
  obtain ⟨p, q, rfl⟩ := h
  exact ⟨x ++ p, q ++ y, by simp⟩

theorem validateTags_err_of_unknown (tagsCat : List (Str × Str))
    (ptags : List Str) (h : ∃ t ∈ ptags, lookupCat tagsCat t = none) :
    ∃ m, validateTags tagsCat ptags = .error m := by
  induction ptags with
  | nil => simp at h
  | cons t rest ih =>
    by_cases ht : (lookupCat tagsCat t).isNone
    · exact ⟨_, by unfold validateTags; rw [if_pos ht]⟩
    · obtain ⟨u, hu, hun⟩ := h
      rcases List.mem_cons.mp hu with rfl | hu2
      · exact absurd (by rw [hun]; rfl) ht
      · obtain ⟨m, hm⟩ := ih ⟨u, hu2, hun⟩
        exact ⟨m, by unfold validateTags; rw [if_neg ht]; exact hm⟩

theorem validateTags_ok_of_known (tagsCat : List (Str × Str))
    (ptags : List Str) (h : ∀ t ∈ ptags, lookupCat tagsCat t ≠ none) :
    validateTags tagsCat ptags = .ok () := by
  induction ptags with
  | nil => rfl
  | cons t rest ih =>
    have ht : ¬ (lookupCat tagsCat t).isNone := by
      simp only [Option.isNone_iff_eq_none]
      exact h t (List.mem_cons_self t rest)
    unfold validateTags
    rw [if_neg ht]
    exact ih (fun u hu => h u (List.mem_cons_of_mem t hu))

theorem validate_project_err (projectsCat tagsCat : List (Str × Str))
    (ptags : List Str) (p : Str)
    (htags : ∀ t ∈ ptags, lookupCat tagsCat t ≠ none)
    (hpu : lookupCat projectsCat p = none) :
    validate projectsCat tagsCat ptags (some p) =
      .error ("Unknown project ".data ++ p
        ++ "\nAvailable projects: [yellow]".data
        ++ joinSep ", ".data (projectsCat.map (·.1))
        ++ "[/yellow]".data) := by
  unfold validate
  rw [validateTags_ok_of_known tagsCat ptags htags, except_bind_ok]
  simp [hpu, List.append_assoc]

theorem validate_err_of_unknown (projectsCat tagsCat : List (Str × Str))
    (ptags : List Str) (project : Option Str)
    (h : (∃ t ∈ ptags, lookupCat tagsCat t = none) ∨
      (∃ p, project = some p ∧ lookupCat projectsCat p = none)) :
    ∃ m, validate projectsCat tagsCat ptags project = .error m := by
  by_cases hvt : ∃ t ∈ ptags, lookupCat tagsCat t = none
  · obtain ⟨m, hm⟩ := validateTags_err_of_unknown tagsCat ptags hvt
    refine ⟨m, ?_⟩
    unfold validate
    rw [hm, except_bind_err]
  · rcases h with h | ⟨p, rfl, hpu⟩
    · exact absurd h hvt
    · exact ⟨_, validate_project_err projectsCat tagsCat ptags p
        (fun t ht hn => hvt ⟨t, ht, hn⟩) hpu⟩

theorem run_submit_of_validate_err (ws uid : Str)
    (projects tags : List (Str × Str)) (respId : Request → Str)
    (ptags : List Str) (project : Option Str)
    (entries : List (Entry AwareDT)) (m : Str)
    (hne : entries ≠ [])
    (hv : validate projects tags ptags project = .error m) :
    run_submit ws uid projects tags respId ptags project entries =
      (.error (.usage m), []) := by
  unfold run_submit
  rw [if_neg (by simpa using hne), hv]

/-- C3 counterexample: with tag catalog `{alpha}`, project catalog
`{work}` and a batch referencing the unknown tag `zzz` and the known
project `work`, the submission phase fails before any request with
the usage error "Unknown tag zzz" — whose message does not contain
the known tag name `alpha`, refuting "lists the known valid names of
the corresponding catalog". -/
theorem c3_counterexample :
    run_submit "w".data "u".data [("work".data, "p1".data)]
        [("alpha".data, "t1".data)] (fun _ => []) ["zzz".data]
        (some "work".data) [closeOutEntry] =
      (.error (.usage ("Unknown tag ".data ++ "zzz".data)), []) ∧
    ¬ SubSeg "alpha".data ("Unknown tag ".data ++ "zzz".data) := by
  refine ⟨rfl, fun h => ?_⟩
  have hf := (hasSeg_iff "alpha".data
    ("Unknown tag ".data ++ "zzz".data)).mpr h
  exact absurd hf (by decide)

/-- C3 amended: for every non-empty batch referencing a tag or
project name absent from the fetched catalogs, the submission phase
fails with a usage error and issues zero mutation requests; when all
tags are known and the project is unknown, the error message lists
every known project name (the unknown-tag error instead names only
the offending tag, see the counterexample). -/
theorem c3_unknown_refs_block_submission :
    (∀ (ws uid : Str) (projects tags : List (Str × Str))
       (respId : Request → Str) (ptags : List Str) (project : Option Str)
       (entries : List (Entry AwareDT)),
      entries ≠ [] →
      ((∃ t ∈ ptags, lookupCat tags t = none) ∨
       (∃ p, project = some p ∧ lookupCat projects p = none)) →
      ∃ m, run_submit ws uid projects tags respId ptags project entries =
        (.error (.usage m), [])) ∧
    (∀ (ws uid : Str) (projects tags : List (Str × Str))
       (respId : Request → Str) (ptags : List Str) (p : Str)
       (entries : List (Entry AwareDT)),
      entries ≠ [] →
      (∀ t ∈ ptags, lookupCat tags t ≠ none) →
      lookupCat projects p = none →
      ∃ m, run_submit ws uid projects tags respId ptags (some p) entries =
          (.error (.usage m), []) ∧
        ∀ name ∈ projects.map (·.1), SubSeg name m) := by
  constructor
  · intro ws uid projects tags respId ptags project entries hne hbad
    obtain ⟨m, hm⟩ := validate_err_of_unknown projects tags ptags project hbad
    exact ⟨m, run_submit_of_validate_err ws uid projects tags respId ptags
      project entries m hne hm⟩
  · intro ws uid projects tags respId ptags p entries hne htags hpu
    refine ⟨_, run_submit_of_validate_err ws uid projects tags respId ptags
      (some p) entries _ hne
      (validate_project_err projects tags ptags p htags hpu), ?_⟩
    intro name hname
    have h1 : SubSeg name (joinSep ", ".data (projects.map (·.1))) :=
      subSeg_joinSep ", ".data (projects.map (·.1)) name hname
    have h2 := subSeg_within name
      (joinSep ", ".data (projects.map (·.1)))
      ("Unknown project ".data ++ p
        ++ "\nAvailable projects: [yellow]".data)
      "[/yellow]".data h1
    obtain ⟨q1, q2, hq⟩ := h2
    exact ⟨q1, q2, by rw [← hq]⟩

/-- C3 witness: the amended statement applied to a concrete batch
referencing the unknown project `nope` against the catalog `{work}`:
the submission errors with no request made and the message contains
the known project name. -/
theorem c3_witness :
    ∃ m, run_submit "w".data "u".data [("work".data, "p1".data)] []
        (fun _ => []) [] (some "nope".data) [closeOutEntry] =
        (.error (.usage m), []) ∧
      ∀ name ∈ ([("work".data, "p1".data)].map
          (fun p : Str × Str => p.1)), SubSeg name m :=
  c3_unknown_refs_block_submission.2 "w".data "u".data
    [("work".data, "p1".data)] [] (fun _ => []) [] "nope".data
    [closeOutEntry] (by decide) (by intro t ht; cases ht) rfl

/-- C5: round-tripping any timezone-aware instant through the
outbound codec (as every `serialize` call site uses it, with the
default UTC zone) and back through the inbound codec into any target
timezone is lossless at second precision: the same instant results,
whatever the target timezone and whatever the machine-local zone the
inbound parser would use for naive strings. -/
theorem c5_codec_round_trip (dt : AwareDT) (target localTz : Int) :
    from_iso_timestamp (to_iso_timestamp dt) target localTz =
      .ok ⟨dt.instant, target⟩ := by
  have h0 : ((if (0 : Int) ≤ 0 then (none : Option Int) else some 0)) =
      none := if_pos le_rfl
  unfold to_iso_timestamp from_iso_timestamp
  simp only [h0, Option.isSome_none, Bool.and_false, Bool.false_eq_true,
    if_false, if_true, Except.ok.injEq, AwareDT.mk.injEq]
  refine ⟨?_, trivial⟩
  have h1 : 86400 * ((dt.instant + 0).ediv 86400)
      + (dt.instant + 0).emod 86400 = dt.instant + 0 :=
    Int.ediv_add_emod _ 86400
  have h2 : 0 ≤ (dt.instant + 0).emod 86400 :=
    Int.emod_nonneg _ (by norm_num)
  have h3 : (dt.instant + 0).emod 86400 < 86400 :=
    Int.emod_lt_of_pos _ (by norm_num)
  omega

/-- C6 counterexample: the retrieval query parameters built by
`_get_entries` go through the codec with the user profile's timezone,
not UTC; for a user in a negative-offset zone (UTC-5, i.e. -18000
seconds) both outbound timestamps are formatted in that non-UTC zone
and retain a numeric UTC offset in addition to the appended literal
`Z`, refuting "no outbound timestamp is ever formatted in a non-UTC
zone or carries a numeric UTC offset". -/
theorem c6_counterexample :
    (get_entries_params (-18000) ⟨0, -18000⟩ ⟨86400, -18000⟩).map
      (fun kv => (kv.2.trailingOffset, kv.2.zSuffix)) =
    [(some (-18000), true), (some (-18000), true)] := rfl

theorem to_iso_utcZ (dt : AwareDT) :
    (to_iso_timestamp dt).trailingOffset = none ∧
      (to_iso_timestamp dt).zSuffix = true := by
  constructor <;> simp [to_iso_timestamp]

/-- C6 amended: the timestamps emitted by `Entry.serialize` (every
create/close-out payload) are converted to UTC and formatted with a
literal `Z` and no numeric offset; the `_get_entries` query bounds are
instead formatted in the user profile's timezone with the `Z` appended
textually — for a non-negative zone offset the numeric offset is
stripped, but for a negative zone offset the output retains the
numeric offset next to the `Z`. -/
theorem c6_outbound_timestamp_zones :
    (∀ (projects tags : List (Str × Str)) (e : Entry AwareDT) (j : Json),
      e.serialize projects tags = .ok j →
      ∀ k x, (k, Json.iso x) ∈ jFields j →
        x.trailingOffset = none ∧ x.zSuffix = true) ∧
    (∀ (user_tz : Int) (start end_ : AwareDT), user_tz < 0 →
      ∀ kv ∈ get_entries_params user_tz start end_,
        kv.2.trailingOffset = some user_tz ∧ kv.2.zSuffix = true) ∧
    (∀ (user_tz : Int) (start end_ : AwareDT), 0 ≤ user_tz →
      ∀ kv ∈ get_entries_params user_tz start end_,
        kv.2.trailingOffset = none ∧ kv.2.zSuffix = true) := by
  refine ⟨?_, ?_, ?_⟩
  · intro projects tags e j hser k x hmem
    unfold Entry.serialize at hser
    split at hser
    · split at hser
      · cases hser
      · cases hser
        simp only [jFields, List.mem_singleton, Prod.mk.injEq,
          Json.iso.injEq] at hmem
        rw [hmem.2]
        exact to_iso_utcZ _
    · cases hpf : projField projects e.project with
      | error err =>
        rw [hpf] at hser
        simp at hser
      | ok projFields =>
        rw [hpf] at hser
        cases hrt : resolveTags tags e.tags with
        | error err =>
          rw [hrt] at hser
          simp at hser
        | ok tagIds =>
          rw [hrt] at hser
          simp only [Except.ok.injEq] at hser
          subst hser
          simp only [jFields, List.append_assoc, List.mem_append,
            List.mem_singleton, Prod.mk.injEq] at hmem
          rcases hmem with h | h | h | h | h | h
          · rw [(Json.iso.injEq .. ▸ h.2 : x = _)]
            exact to_iso_utcZ _
          · rcases hEnd : e.end_ with _ | t
            · rw [hEnd] at h
              simp at h
            · rw [hEnd] at h
              simp only [List.mem_singleton, Prod.mk.injEq] at h
              rw [(Json.iso.injEq .. ▸ h.2 : x = _)]
              exact to_iso_utcZ _
          · rcases hDesc : e.description with _ | d
            · rw [hDesc] at h
              simp at h
            · rw [hDesc] at h
              simp only [List.mem_singleton, Prod.mk.injEq] at h
              exact absurd h.2 (by simp)
          · exact absurd h.2 (by simp)
          · unfold projField at hpf
            split at hpf
            · split at hpf
              · cases hpf
              · cases hpf
                simp only [List.mem_singleton, Prod.mk.injEq] at h
                exact absurd h.2 (by simp)
            · cases hpf
              simp at h
          · exact absurd h.2 (by simp)
  · intro user_tz start end_ htz kv hkv
    have hoff : (if 0 ≤ user_tz then (none : Option Int) else some user_tz) =
        some user_tz := if_neg (by omega)
    rcases List.mem_cons.mp hkv with rfl | hkv2
    · exact ⟨by simp [to_iso_timestamp, hoff], rfl⟩
    · rcases List.mem_singleton.mp hkv2 with rfl
      exact ⟨by simp [to_iso_timestamp, hoff], rfl⟩
  · intro user_tz start end_ htz kv hkv
    have hoff : (if 0 ≤ user_tz then (none : Option Int) else some user_tz) =
        none := if_pos htz
    rcases List.mem_cons.mp hkv with rfl | hkv2
    · exact ⟨by simp [to_iso_timestamp, hoff], rfl⟩
    · rcases List.mem_singleton.mp hkv2 with rfl
      exact ⟨by simp [to_iso_timestamp, hoff], rfl⟩

/-- C6 witness: the amended statement applied to a concrete close-out
payload (its timestamp is UTC with `Z` and no offset) and to concrete
retrieval bounds for a UTC-5 user (their timestamps keep the negative
numeric offset). -/
theorem c6_witness :
    ((to_iso_timestamp ⟨3600, 0⟩).trailingOffset = none ∧
      (to_iso_timestamp ⟨3600, 0⟩).zSuffix = true) ∧
    ((("start".data, to_iso_timestamp ⟨0, -18000⟩ (-18000)) :
        Str × IsoOut).2.trailingOffset = some (-18000) ∧
      (("start".data, to_iso_timestamp ⟨0, -18000⟩ (-18000)) :
        Str × IsoOut).2.zSuffix = true) :=
  ⟨c6_outbound_timestamp_zones.1 [] [] closeOutEntry
      (.obj [("end".data, .iso (to_iso_timestamp ⟨3600, 0⟩))]) rfl
      "end".data (to_iso_timestamp ⟨3600, 0⟩) (by simp [jFields]),
   c6_outbound_timestamp_zones.2.1 (-18000) ⟨0, -18000⟩ ⟨86400, -18000⟩
      (by norm_num)
      ("start".data, to_iso_timestamp ⟨0, -18000⟩ (-18000))
      (List.mem_cons_self _ _)⟩

end Cloclify
